import Mathlib

/-!
Shallow embedding of the GSTools randomization-method generator
(`gstools/field/generator.py`, class `RandMeth`) and verification of the
specification claims C1 - C10.

Modelling conventions:
* Python machine floats are modelled as real numbers (for amplitudes,
  coordinates, field values) or as rationals (for the model parameters and
  `chunk_tmp_size`, which the generator only stores, compares and divides by).
* The seed slot can hold a Python `int`, `None`, or the `np.nan` sentinel;
  in addition each seed value carries an object identifier `oid`, because the
  seed setter in the source compares with `is not` (object identity).
  By convention `None` is the unique object with `oid = 0` and the `np.nan`
  singleton the unique object with `oid = 1`.
* The RNG collaborator (`gstools.random.rng.RNG`) and the covariance-model
  class are outside the given source tree; they are modelled from the spec as
  deterministic seeded streams, parameterised by an `RNGImpl`.
* Stateful Python methods become functions `RandMeth → ... → RandMeth`
  (plus a `Bool` "raised" flag where the source can raise `ValueError`).
-/

namespace GSTools

/-- Value stored in (or passed to) the seed slot: a Python `int`, `None`
("pick a fresh random seed"), or the floating `np.nan` sentinel. -/
inductive SeedVal where
  | noneV : SeedVal
  | nanV : SeedVal
  | intV (z : ℤ) : SeedVal
deriving DecidableEq

/-- A Python object holding a seed value: the value together with an object
identity `oid` (as used by the `is` / `is not` comparisons in the source).
`None` is the unique object with `oid = 0`, the `np.nan` singleton the unique
object with `oid = 1`; distinct `int` objects have distinct `oid ≥ 2` but may
hold equal values. -/
structure SeedObj where
  val : SeedVal
  oid : ℕ
deriving DecidableEq

/-- The Python `None` singleton in the seed slot. -/
def objNone : SeedObj := ⟨SeedVal.noneV, 0⟩

/-- The `np.nan` singleton used as the "keep the current seed" sentinel. -/
def objNan : SeedObj := ⟨SeedVal.nanV, 1⟩

/-- Modelled from the spec: the covariance-model interface consumed by the
generator (`gstools.covmodel.base.CovModel` is not part of the given source).
It exposes `dim`, `var`, `nugget`, `len_scale`, a "has closed-form radial
distribution" flag `has_ppf`, and spectral-density functions; the latter are
identified by `specId` (the generator only passes them through to the RNG).
Equality is value equality, as the spec requires for `CovModel.__eq__`. -/
structure Model where
  dim : ℕ
  var : ℚ
  nugget : ℚ
  len_scale : ℚ
  has_ppf : Bool
  specId : ℕ
deriving DecidableEq

/-- Argument passed where the source expects a covariance model: either an
actual covariance-model value or some other object (`isinstance` fails). -/
inductive ModelArg where
  | covArg (m : Model) : ModelArg
  | notCov : ModelArg

/-- State of the RNG collaborator: the seed value it was constructed from and
the current position in its pseudo-random stream. -/
structure RngState where
  sv : SeedVal
  pos : ℕ
deriving DecidableEq

/-- Modelled from the spec: the behaviour of the RNG collaborator
(`gstools.random.rng.RNG`, not part of the given source).  Per spec §6 the
random source is constructible from a seed and exposes seeded normal sampling,
uniform-on-sphere sampling and radial-density sampling; given a seed its
output is a deterministic stream.  Each field gives the draw obtained from a
given seed at a given stream position. -/
structure RNGImpl where
  normalAt : SeedVal → ℕ → ℝ
  sphereAt : SeedVal → ℕ → ℕ → ℕ → ℝ
  distRadAt : SeedVal → ℕ → Model → ℕ → ℝ
  lnPdfRadAt : SeedVal → ℕ → Model → ℕ → ℝ

/-- Modelled from the spec: `RNG(seed)` — a freshly seeded stream at
position 0. -/
def mkRng (sv : SeedVal) : RngState := ⟨sv, 0⟩

/-- Modelled from the spec: `rng.random.normal(size=n)` — draw `n`
standard-normal scalars from the stream, advancing it. -/
def rngNormalList (impl : RNGImpl) (r : RngState) (n : ℕ) : List ℝ × RngState :=
  (List.ofFn fun i : Fin n => impl.normalAt r.sv (r.pos + i), ⟨r.sv, r.pos + n⟩)

/-- Modelled from the spec: `rng.sample_sphere(dim, n)` — `dim × n` matrix of
unit directions, advancing the stream. -/
def rngSampleSphere (impl : RNGImpl) (r : RngState) (d n : ℕ) :
    List (List ℝ) × RngState :=
  (List.ofFn fun di : Fin d => List.ofFn fun i : Fin n => impl.sphereAt r.sv r.pos di i,
   ⟨r.sv, r.pos + d * n⟩)

/-- Modelled from the spec: `rng.sample_dist(size=n, pdf, cdf, ppf, a=0)` —
`n` radii via inverse-CDF sampling from the model's radial spectral density. -/
def rngSampleDist (impl : RNGImpl) (r : RngState) (m : Model) (n : ℕ) :
    List ℝ × RngState :=
  (List.ofFn fun i : Fin n => impl.distRadAt r.sv r.pos m i, ⟨r.sv, r.pos + n⟩)

/-- Modelled from the spec: `rng.sample_ln_pdf(ln_pdf, size=n,
sample_around=1/len_scale)` — `n` radii via log-density sampling. -/
def rngSampleLnPdf (impl : RNGImpl) (r : RngState) (m : Model) (n : ℕ) :
    List ℝ × RngState :=
  (List.ofFn fun i : Fin n => impl.lnPdfRadAt r.sv r.pos m i, ⟨r.sv, r.pos + n⟩)

/-- The generator state (`RandMeth` instance attributes).  `model` is `none`
only in the transient pre-`update` state of `__init__`. -/
structure RandMeth where
  mode_no : ℕ
  chunk_tmp_size : ℚ
  model : Option Model
  seed : SeedObj
  rng : RngState
  z_1 : List ℝ
  z_2 : List ℝ
  cov_sample : List (List ℝ)

/-- `self.dim`, delegating to the stored model (`self.model.dim`); the source
only reads it when a model is stored. -/
def RandMeth.dimS (s : RandMeth) : ℕ := (s.model.map Model.dim).getD 0

/-- The stored model; the source only dereferences it when a model is set. -/
def RandMeth.modelD (s : RandMeth) : Model := s.model.getD ⟨0, 0, 0, 1, false, 0⟩

/-- `RandMeth._set_seed(new_seed)`: store the seed object, build a fresh RNG
from it, then draw — in this fixed order — `z_1` (N normals), `z_2` (N
normals), the sphere directions (`dim × N`), and the radii (N, via the
inverse-CDF path when `has_ppf` and the log-density path otherwise), finally
forming `cov_sample = rad * sphere_coord` (row-wise broadcast product). -/
def setSeedFun (impl : RNGImpl) (s : RandMeth) (new : SeedObj) : RandMeth :=
  let r0 := mkRng new.val
  let p1 := rngNormalList impl r0 s.mode_no
  let p2 := rngNormalList impl p1.2 s.mode_no
  let p3 := rngSampleSphere impl p2.2 s.dimS s.mode_no
  let p4 := if s.modelD.has_ppf then rngSampleDist impl p3.2 s.modelD s.mode_no
            else rngSampleLnPdf impl p3.2 s.modelD s.mode_no
  { s with
    seed := new
    rng := p4.2
    z_1 := p1.1
    z_2 := p2.1
    cov_sample := p3.1.map fun row => List.zipWith (fun a b => a * b) p4.1 row }

/-- `RandMeth.update(model, seed=np.nan)`.  Raises `ValueError` (flag `true`)
when the argument is not a `CovModel` instance; otherwise acts only when the
incoming model is not value-equal to the stored one, in which case it stores a
deep copy and resamples with the passed seed (when it is `None` or a non-NaN
number) or with the kept stored seed (when it is the NaN sentinel). -/
def update (impl : RNGImpl) (s : RandMeth) (marg : ModelArg) (sd : SeedObj) :
    RandMeth × Bool :=
  match marg with
  | ModelArg.covArg m =>
      if s.model ≠ some m then
        if sd.val ≠ SeedVal.nanV then
          (setSeedFun impl { s with model := some m } sd, false)
        else
          (setSeedFun impl { s with model := some m } s.seed, false)
      else (s, false)
  | ModelArg.notCov => (s, true)

/-- The attribute state set up by `__init__` just before it delegates to
`update`: no model, `_seed = None`, no modes drawn yet. -/
def initState (mode_no : ℕ) (cts : ℚ) : RandMeth :=
  ⟨mode_no, cts, none, objNone, mkRng SeedVal.noneV, [], [], []⟩

/-- `RandMeth.__init__(model, mode_no, seed, chunk_tmp_size)`: initialise the
attributes and delegate to `update(model, seed)`. -/
def init (impl : RNGImpl) (marg : ModelArg) (mode_no : ℕ) (sd : SeedObj)
    (cts : ℚ) : RandMeth × Bool :=
  update impl (initState mode_no cts) marg sd

/-- The `seed` property setter: `if new_seed is not self._seed:
self._set_seed(new_seed)` — an object-identity comparison. -/
def seedSet (impl : RNGImpl) (s : RandMeth) (new : SeedObj) : RandMeth :=
  if new.oid ≠ s.seed.oid then setSeedFun impl s new else s

/-- `RandMeth.reset_seed(seed=None)`: overwrite the stored seed with the
`np.nan` singleton, then assign through the `seed` property. -/
def reset_seed (impl : RNGImpl) (s : RandMeth) (sd : SeedObj) : RandMeth :=
  seedSet impl { s with seed := objNan } sd

/-- The `mode_no` property setter: store the new count, then resample with the
stored seed — with no change check of any kind. -/
def modeNoSet (impl : RNGImpl) (s : RandMeth) (n : ℕ) : RandMeth :=
  setSeedFun impl { s with mode_no := n } s.seed

/-- Shape consistency of the mode set: `z_1` and `z_2` have length `N` =
`mode_no`, and `cov_sample` has exactly `dim` rows of `N` columns each. -/
def RandMeth.wf (s : RandMeth) : Prop :=
  s.z_1.length = s.mode_no ∧ s.z_2.length = s.mode_no ∧
  s.cov_sample.length = s.dimS ∧ ∀ r ∈ s.cov_sample, r.length = s.mode_no

/-- `int(max(0, np.ceil(np.log2(tmp_pnt / chunk_tmp_size))))` from
`__call__`, with the float arithmetic read over the reals. -/
noncomputable def chunkNoExp (tmp_pnt : ℕ) (c : ℚ) : ℕ :=
  (max 0 ⌈Real.logb 2 ((tmp_pnt : ℝ) / (c : ℝ))⌉).toNat

/-- `int(np.ceil(mode_no / chunk_no))` from `__call__`. -/
noncomputable def chunkLen (n cno : ℕ) : ℕ := ⌈(n : ℝ) / (cno : ℝ)⌉.toNat

/-- The contribution of mode `i` at the query point `(x, y, z)`:
`z_1[i]·cos(phase) + z_2[i]·sin(phase)` with the phase built from 1, 2 or 3
wavevector components according to `dim`, exactly as the dimension dispatch in
`__call__` does. -/
noncomputable def modeTerm (s : RandMeth) (x y z : ℝ) (i : ℕ) : ℝ :=
  let phase : ℝ :=
    if s.dimS = 1 then (s.cov_sample.getD 0 []).getD i 0 * x
    else if s.dimS = 2 then
      (s.cov_sample.getD 0 []).getD i 0 * x + (s.cov_sample.getD 1 []).getD i 0 * y
    else
      (s.cov_sample.getD 0 []).getD i 0 * x + (s.cov_sample.getD 1 []).getD i 0 * y +
        (s.cov_sample.getD 2 []).getD i 0 * z
  s.z_1.getD i 0 * Real.cos phase + s.z_2.getD i 0 * Real.sin phase

/-- The partial sum contributed by one chunk, i.e. by the slice
`[ch_start : ch_stop]` of the mode arrays; numpy slicing clamps the upper
bound at the array length (on all reachable states the three arrays have the
same length, cf. `RandMeth.wf`). -/
noncomputable def chunkSum (s : RandMeth) (x y z : ℝ) (a b : ℕ) : ℝ :=
  ∑ i ∈ Finset.Ico a (min b s.z_1.length), modeTerm s x y z i

/-- `RandMeth.__call__(x, y, z)` for one scalar query point (so the broadcast
shape is `()` and `tmp_pnt = 1 · mode_no`): the chunked trigonometric sum, the
`sqrt(var / N)` prefactor, and the nugget term — `sqrt(nugget)` times one
fresh draw from the persistent RNG stream when `nugget > 0` and exactly `0.0`
otherwise.  Returns the field value and the state after the call (the RNG
stream advances only on the nugget draw). -/
noncomputable def call (impl : RNGImpl) (s : RandMeth) (x y z : ℝ) :
    ℝ × RandMeth :=
  let cexp := chunkNoExp s.mode_no s.chunk_tmp_size
  let cno := 2 ^ cexp
  let clen := chunkLen s.mode_no cno
  let summed := ∑ ch ∈ Finset.range cno, chunkSum s x y z (ch * clen) ((ch + 1) * clen)
  let nug : ℝ :=
    if 0 < s.modelD.nugget then
      Real.sqrt (s.modelD.nugget : ℝ) * impl.normalAt s.rng.sv s.rng.pos
    else 0
  let rng2 : RngState :=
    if 0 < s.modelD.nugget then ⟨s.rng.sv, s.rng.pos + 1⟩ else s.rng
  (Real.sqrt ((s.modelD.var : ℝ) / (s.mode_no : ℝ)) * summed + nug,
   { s with rng := rng2 })

/-- The spec's field formula (§4.3), stated independently of the chunking:
`sqrt(var/N) · Σ_{i<N} (z_1[i]·cos⟨k_i,p⟩ + z_2[i]·sin⟨k_i,p⟩) + nugget_term`
with the Euclidean inner product over the model's `dim` coordinates. -/
noncomputable def specPhase (s : RandMeth) (x y z : ℝ) (i : ℕ) : ℝ :=
  ∑ d ∈ Finset.range s.dimS, (s.cov_sample.getD d []).getD i 0 * ([x, y, z].getD d 0)

/-- The spec-side field value at one query point (see `specPhase`). -/
noncomputable def specFieldValue (impl : RNGImpl) (s : RandMeth) (x y z : ℝ) : ℝ :=
  Real.sqrt ((s.modelD.var : ℝ) / (s.mode_no : ℝ)) *
    (∑ i ∈ Finset.range s.mode_no,
      (s.z_1.getD i 0 * Real.cos (specPhase s x y z i) +
       s.z_2.getD i 0 * Real.sin (specPhase s x y z i))) +
  (if 0 < s.modelD.nugget then
      Real.sqrt (s.modelD.nugget : ℝ) * impl.normalAt s.rng.sv s.rng.pos
   else 0)

/-- A concrete all-zero RNG behaviour, used for concrete instantiations. -/
def implZero : RNGImpl :=
  ⟨fun _ _ => 0, fun _ _ _ _ => 0, fun _ _ _ _ => 0, fun _ _ _ _ => 0⟩

/-- A concrete one-dimensional covariance model. -/
def mEx : Model := ⟨1, 1, 0, 1, true, 0⟩

/-- A concrete well-formed generator state over `mEx` with one mode. -/
def sEx : RandMeth :=
  ⟨1, 1, some mEx, ⟨SeedVal.intV 7, 2⟩, ⟨SeedVal.intV 7, 4⟩, [1], [1], [[1]]⟩

theorem sEx_wf : sEx.wf := by
  refine ⟨rfl, rfl, rfl, ?_⟩
  intro r hr
  simp only [sEx, List.mem_singleton] at hr
  subst hr
  rfl

/-- `_set_seed` always rebuilds all three mode arrays with consistent shapes:
`z_1`, `z_2` of length `mode_no` and `cov_sample` as `dim` rows of `mode_no`
columns. -/
theorem setSeedFun_wf (impl : RNGImpl) (s : RandMeth) (sd : SeedObj) :
    (setSeedFun impl s sd).wf := by
  unfold setSeedFun RandMeth.wf
  refine ⟨?_, ?_, ?_, ?_⟩
  · simp [rngNormalList, RandMeth.dimS]
  · simp [rngNormalList, RandMeth.dimS]
  · simp [rngSampleSphere, RandMeth.dimS]
  · intro r hr
    simp only [rngSampleSphere, List.mem_map, List.mem_ofFn] at hr
    obtain ⟨row, ⟨di, hrow⟩, hr⟩ := hr
    subst hr
    by_cases hp : s.modelD.has_ppf <;>
      simp [hp, rngSampleDist, rngSampleLnPdf, ← hrow, rngNormalList]

/-- Claim C1: false on the code.  When the incoming model is value-equal to
the stored snapshot, `update` is a no-op for EVERY seed argument — in
particular an explicitly passed integer seed is silently dropped and no
resampling happens, contrary to the claim (and to `update`'s own docstring,
which announces a no-op only when model and seed are both unchanged). -/
theorem update_equal_model_ignores_explicit_seed (impl : RNGImpl) (s : RandMeth)
    (m : Model) (sd : SeedObj) (k : ℤ) (hm : s.model = some m)
    (hsd : sd.val = SeedVal.intV k) :
    update impl s (ModelArg.covArg m) sd = (s, false) := by
  simp [update, hm]

theorem update_equal_model_ignores_explicit_seed_witness :
    update implZero sEx (ModelArg.covArg mEx) ⟨SeedVal.intV 5, 9⟩ = (sEx, false) :=
  update_equal_model_ignores_explicit_seed implZero sEx mEx ⟨SeedVal.intV 5, 9⟩ 5 rfl rfl

/-- Claim C5: calling `update` with a value-equal model and the NaN
"unchanged" seed sentinel is a complete no-op: the returned state is the very
state passed in (same arrays, same seed, same RNG), and no error is raised. -/
theorem update_noop_on_equal_model_and_sentinel (impl : RNGImpl) (s : RandMeth)
    (m : Model) (sd : SeedObj) (hm : s.model = some m)
    (hsd : sd.val = SeedVal.nanV) :
    update impl s (ModelArg.covArg m) sd = (s, false) := by
  simp [update, hm]

theorem update_noop_on_equal_model_and_sentinel_witness :
    update implZero sEx (ModelArg.covArg mEx) objNan = (sEx, false) :=
  update_noop_on_equal_model_and_sentinel implZero sEx mEx objNan rfl rfl

/-- Claim C8: `update` (and hence construction, which delegates to it) raises
the invalid-model `ValueError` exactly when the passed object is not a
covariance-model instance; in the error case the raise precedes every write,
so the generator state is returned untouched (atomicity on error). -/
theorem invalid_model_error_iff (impl : RNGImpl) :
    (∀ s sd, update impl s ModelArg.notCov sd = (s, true)) ∧
    (∀ s m sd, (update impl s (ModelArg.covArg m) sd).2 = false) ∧
    (∀ n sd cts, init impl ModelArg.notCov n sd cts = (initState n cts, true)) ∧
    (∀ m n sd cts, (init impl (ModelArg.covArg m) n sd cts).2 = false) := by
  refine ⟨fun s sd => rfl, ?_, fun n sd cts => rfl, ?_⟩
  · intro s m sd
    simp only [update]
    split
    · split <;> rfl
    · rfl
  · intro m n sd cts
    simp only [init, update]
    split
    · split <;> rfl
    · rfl

/-- Claim C10: assigning to `mode_no` always resamples — it is literally a
store followed by `_set_seed` with the stored seed and no change check, so a
same-value assignment still replaces the mode arrays with fresh draws (they
change whenever the fresh draw differs from the current contents), whereas
assigning the stored seed object through the `seed` setter is a no-op. -/
theorem mode_no_assign_always_resamples (impl : RNGImpl) (s : RandMeth)
    (hz : (setSeedFun impl s s.seed).z_1 ≠ s.z_1) :
    modeNoSet impl s s.mode_no = setSeedFun impl s s.seed ∧
    (modeNoSet impl s s.mode_no).z_1 ≠ s.z_1 ∧
    seedSet impl s s.seed = s := by
  refine ⟨rfl, hz, ?_⟩
  unfold seedSet
  rw [if_neg]
  simp

theorem mode_no_assign_always_resamples_witness :
    modeNoSet implZero sEx sEx.mode_no = setSeedFun implZero sEx sEx.seed ∧
    (modeNoSet implZero sEx sEx.mode_no).z_1 ≠ sEx.z_1 ∧
    seedSet implZero sEx sEx.seed = sEx :=
  mode_no_assign_always_resamples implZero sEx (by
    simp [setSeedFun, rngNormalList, implZero, sEx])

/-- Claim C3, counterexample: the seed setter compares with `is not` (object
identity), not value inequality.  Assigning a DISTINCT int object holding the
SAME value 7 as the stored seed (`sEx.seed = ⟨intV 7, oid 2⟩`) is not a no-op:
the mode arrays are replaced by fresh draws. -/
theorem seed_assign_same_value_resamples :
    (⟨SeedVal.intV 7, 3⟩ : SeedObj).val = sEx.seed.val ∧
    (seedSet implZero sEx ⟨SeedVal.intV 7, 3⟩).z_1 ≠ sEx.z_1 := by
  constructor
  · rfl
  · simp [seedSet, setSeedFun, rngNormalList, implZero, sEx]

/-- Claim C3, amended: writing the seed regenerates the modes exactly when the
assigned seed object is not the identical object (`is not`) to the stored one.
Distinct values always live in distinct objects, so a differing value always
regenerates; but an equal value in a distinct object also regenerates — only
assigning the very same object is a no-op.  (`hid` states that object
identity implies value equality, which holds of Python objects.) -/
theorem seed_assign_identity_semantics (impl : RNGImpl) (s : RandMeth)
    (new : SeedObj) (hid : new.oid = s.seed.oid → new.val = s.seed.val) :
    (seedSet impl s new = s ↔ new.oid = s.seed.oid) ∧
    (new.val ≠ s.seed.val → seedSet impl s new = setSeedFun impl s new) := by
  constructor
  · constructor
    · intro h
      by_contra hne
      have hs : seedSet impl s new = setSeedFun impl s new := by
        unfold seedSet
        rw [if_pos hne]
      rw [hs] at h
      have : (setSeedFun impl s new).seed = s.seed := congrArg RandMeth.seed h
      have : new = s.seed := this
      exact hne (congrArg SeedObj.oid this)
    · intro h
      unfold seedSet
      rw [if_neg]
      simp [h]
  · intro hv
    unfold seedSet
    rw [if_pos]
    intro h
    exact hv (hid h)

theorem seed_assign_identity_semantics_witness :
    (seedSet implZero sEx ⟨SeedVal.intV 9, 5⟩ = sEx ↔
      (⟨SeedVal.intV 9, 5⟩ : SeedObj).oid = sEx.seed.oid) ∧
    ((⟨SeedVal.intV 9, 5⟩ : SeedObj).val ≠ sEx.seed.val →
      seedSet implZero sEx ⟨SeedVal.intV 9, 5⟩ = setSeedFun implZero sEx ⟨SeedVal.intV 9, 5⟩) :=
  seed_assign_identity_semantics implZero sEx ⟨SeedVal.intV 9, 5⟩ (by decide)

/-- Claim C9: every normally completing operation leaves the three mode-set
arrays with consistent shapes (`z_1`, `z_2` of length `mode_no`; `cov_sample`
with `dim` rows of `mode_no` columns), and `update` either leaves the state
untouched or replaces the three arrays as a unit through `_set_seed`. -/
theorem mode_set_shape_invariant (impl : RNGImpl) :
    (∀ marg n sd cts g, init impl marg n sd cts = (g, false) → g.wf) ∧
    (∀ s marg sd g, s.wf → update impl s marg sd = (g, false) → g.wf) ∧
    (∀ s sd, s.wf → (reset_seed impl s sd).wf) ∧
    (∀ s sd, s.wf → (seedSet impl s sd).wf) ∧
    (∀ s n, (modeNoSet impl s n).wf) ∧
    (∀ s marg sd g b, update impl s marg sd = (g, b) →
        g = s ∨ ∃ m sd2, g = setSeedFun impl { s with model := some m } sd2) := by
  have hunit : ∀ s marg sd g b, update impl s marg sd = (g, b) →
      g = s ∨ ∃ m sd2, g = setSeedFun impl { s with model := some m } sd2 := by
    intro s marg sd g b h
    match marg with
    | ModelArg.notCov =>
        exact Or.inl (congrArg Prod.fst h).symm
    | ModelArg.covArg m =>
        simp only [update] at h
        by_cases hm : s.model ≠ some m
        · rw [if_pos hm] at h
          by_cases hsd : sd.val ≠ SeedVal.nanV
          · rw [if_pos hsd] at h
            exact Or.inr ⟨m, sd, (congrArg Prod.fst h).symm⟩
          · rw [if_neg hsd] at h
            exact Or.inr ⟨m, s.seed, (congrArg Prod.fst h).symm⟩
        · rw [if_neg hm] at h
          exact Or.inl (congrArg Prod.fst h).symm
  have hupd : ∀ s marg sd g, s.wf → update impl s marg sd = (g, false) → g.wf := by
    intro s marg sd g hs h
    rcases hunit s marg sd g false h with hg | ⟨m, sd2, hg⟩
    · rw [hg]; exact hs
    · rw [hg]; exact setSeedFun_wf impl _ sd2
  have hseed : ∀ s sd, s.wf → (seedSet impl s sd).wf := by
    intro s sd hs
    unfold seedSet
    by_cases h : sd.oid ≠ s.seed.oid
    · rw [if_pos h]
      exact setSeedFun_wf impl s sd
    · rw [if_neg h]
      exact hs
  refine ⟨?_, hupd, ?_, hseed, ?_, hunit⟩
  · intro marg n sd cts g h
    rcases hunit (initState n cts) marg sd g false h with hg | ⟨m, sd2, hg⟩
    · -- a no-op result is impossible without an error flag here: on the
      -- fresh `initState` the stored model is `none`, so `update` on a
      -- covariance model always resamples, and on `notCov` the flag is true
      match marg with
      | ModelArg.notCov =>
          have h2 := congrArg Prod.snd h
          simp [init, update] at h2
      | ModelArg.covArg m =>
          have heq : update impl (initState n cts) (ModelArg.covArg m) sd
              = (g, false) := h
          simp only [update, initState] at heq
          rw [if_pos (by simp)] at heq
          by_cases hsd : sd.val ≠ SeedVal.nanV
          · rw [if_pos hsd] at heq
            have h1 : _ = g := congrArg Prod.fst heq
            rw [← h1]
            exact setSeedFun_wf impl _ sd
          · rw [if_neg hsd] at heq
            have h1 : _ = g := congrArg Prod.fst heq
            rw [← h1]
            exact setSeedFun_wf impl _ _
    · rw [hg]; exact setSeedFun_wf impl _ sd2
  · intro s sd hs
    exact hseed { s with seed := objNan } sd hs
  · intro s n
    exact setSeedFun_wf impl { s with mode_no := n } s.seed

theorem mode_set_shape_invariant_witness :
    (seedSet implZero sEx ⟨SeedVal.intV 1, 9⟩).wf :=
  (mode_set_shape_invariant implZero).2.2.2.1 sEx ⟨SeedVal.intV 1, 9⟩ sEx_wf

/-- The clamped chunk slices `[ch·clen, min((ch+1)·clen, L))` accumulate to
the prefix `[0, min(c·clen, L))`. -/
theorem sum_chunks_aux (f : ℕ → ℝ) (clen L : ℕ) :
    ∀ c : ℕ,
      ∑ ch ∈ Finset.range c, ∑ i ∈ Finset.Ico (ch * clen) (min ((ch + 1) * clen) L), f i
        = ∑ i ∈ Finset.Ico 0 (min (c * clen) L), f i := by
  intro c
  induction c with
  | zero => simp
  | succ n ih =>
      rw [Finset.sum_range_succ, ih]
      by_cases h : n * clen ≤ L
      · rw [min_eq_left h,
          Finset.sum_Ico_consecutive f (Nat.zero_le _)
            (le_min (Nat.mul_le_mul_right clen (Nat.le_succ n)) h)]
      · push_neg at h
        have hmono : n * clen ≤ (n + 1) * clen := Nat.mul_le_mul_right clen (Nat.le_succ n)
        rw [min_eq_right h.le, min_eq_right (le_trans h.le hmono)]
        have hemp : Finset.Ico (n * clen) L = ∅ := Finset.Ico_eq_empty (not_lt.mpr h.le)
        rw [hemp, Finset.sum_empty, add_zero]

/-- When the chunks cover all of `[0, L)`, chunked summation of the clamped
slices equals the plain sum over `[0, L)`. -/
theorem sum_chunks_eq (f : ℕ → ℝ) (clen L cno : ℕ) (h : L ≤ cno * clen) :
    ∑ ch ∈ Finset.range cno, ∑ i ∈ Finset.Ico (ch * clen) (min ((ch + 1) * clen) L), f i
      = ∑ i ∈ Finset.range L, f i := by
  rw [sum_chunks_aux f clen L cno, min_eq_right h, Finset.range_eq_Ico]

/-- `chunk_no · chunk_len ≥ mode_no`: the ceiling division covers all modes. -/
theorem le_mul_chunkLen (n cno : ℕ) (h : 1 ≤ cno) : n ≤ cno * chunkLen n cno := by
  have hc0 : (0 : ℝ) < (cno : ℝ) := by exact_mod_cast h
  have hnn : (0 : ℤ) ≤ ⌈(n : ℝ) / (cno : ℝ)⌉ :=
    Int.ceil_nonneg (div_nonneg (Nat.cast_nonneg n) (le_of_lt hc0))
  have h1 : ((n : ℝ) / (cno : ℝ)) ≤ ((chunkLen n cno : ℕ) : ℝ) := by
    unfold chunkLen
    have hh := Int.toNat_of_nonneg hnn
    calc (n : ℝ) / (cno : ℝ) ≤ ((⌈(n : ℝ) / (cno : ℝ)⌉ : ℤ) : ℝ) := Int.le_ceil _
      _ = ((⌈(n : ℝ) / (cno : ℝ)⌉.toNat : ℕ) : ℝ) := by exact_mod_cast hh.symm
  have h2 : (n : ℝ) ≤ (cno : ℝ) * ((chunkLen n cno : ℕ) : ℝ) := by
    calc (n : ℝ) = (cno : ℝ) * ((n : ℝ) / (cno : ℝ)) := by
          field_simp
      _ ≤ (cno : ℝ) * ((chunkLen n cno : ℕ) : ℝ) :=
          mul_le_mul_of_nonneg_left h1 (le_of_lt hc0)
  exact_mod_cast h2

/-- The value returned by `__call__`, with the chunked accumulation collapsed
to a single sum over all `mode_no` modes (exact arithmetic). -/
theorem call_val_eq (impl : RNGImpl) (s : RandMeth) (x y z : ℝ) (hwf : s.wf) :
    (call impl s x y z).1
      = Real.sqrt ((s.modelD.var : ℝ) / (s.mode_no : ℝ)) *
          (∑ i ∈ Finset.range s.mode_no, modeTerm s x y z i)
        + (if 0 < s.modelD.nugget then
            Real.sqrt (s.modelD.nugget : ℝ) * impl.normalAt s.rng.sv s.rng.pos
           else 0) := by
  obtain ⟨hz1, _, _, _⟩ := hwf
  simp only [call, chunkSum]
  have hcov : s.z_1.length ≤
      2 ^ chunkNoExp s.mode_no s.chunk_tmp_size *
        chunkLen s.mode_no (2 ^ chunkNoExp s.mode_no s.chunk_tmp_size) := by
    rw [hz1]
    exact le_mul_chunkLen s.mode_no _ (Nat.one_le_two_pow)
  rw [sum_chunks_eq (modeTerm s x y z) _ _ _ hcov, hz1]

/-- Claim C2: for a query point (one scalar coordinate per required axis),
`__call__` returns exactly the spec formula — `sqrt(var/N)` times the sum over
all `N` modes of `z_1[i]·cos⟨k_i,p⟩ + z_2[i]·sin⟨k_i,p⟩` — plus a nugget term
that is `sqrt(nugget)` times one fresh standard-normal draw from the current
RNG stream when `nugget > 0`, and exactly `0` when `nugget = 0`. -/
theorem call_matches_spectral_formula (impl : RNGImpl) (s : RandMeth)
    (x y z : ℝ) (hwf : s.wf) (h1 : 1 ≤ s.dimS) (h3 : s.dimS ≤ 3) :
    (call impl s x y z).1 = specFieldValue impl s x y z := by
  rw [call_val_eq impl s x y z hwf]
  unfold specFieldValue
  congr 1
  congr 1
  refine Finset.sum_congr rfl ?_
  intro i _
  unfold modeTerm specPhase
  have hd : s.dimS = 1 ∨ s.dimS = 2 ∨ s.dimS = 3 := by omega
  rcases hd with h | h | h <;>
    simp [h, Finset.sum_range_succ, Finset.sum_range_one, List.getD]

theorem call_matches_spectral_formula_witness :
    (call implZero sEx 0 0 0).1 = specFieldValue implZero sEx 0 0 0 :=
  call_matches_spectral_formula implZero sEx 0 0 0 sEx_wf (by decide) (by decide)

/-- Claim C6: the value of `__call__` is invariant under `chunk_tmp_size` —
the clamped chunk ranges partition the mode indices exactly once, so any two
chunk caps give the same total (exact arithmetic). -/
theorem call_chunk_size_invariant (impl : RNGImpl) (s : RandMeth)
    (x y z : ℝ) (c1 c2 : ℚ) (hwf : s.wf) :
    (call impl { s with chunk_tmp_size := c1 } x y z).1
      = (call impl { s with chunk_tmp_size := c2 } x y z).1 := by
  have hwf1 : ({ s with chunk_tmp_size := c1 } : RandMeth).wf := hwf
  have hwf2 : ({ s with chunk_tmp_size := c2 } : RandMeth).wf := hwf
  rw [call_val_eq impl _ x y z hwf1, call_val_eq impl _ x y z hwf2]
  rfl

theorem call_chunk_size_invariant_witness :
    (call implZero { sEx with chunk_tmp_size := 1 } 0 0 0).1
      = (call implZero { sEx with chunk_tmp_size := 100 } 0 0 0).1 :=
  call_chunk_size_invariant implZero sEx 0 0 0 1 100 sEx_wf

/-- The real ceiling division of `__call__`'s `chunk_len` agrees with natural
ceiling division. -/
theorem chunkLen_eq_div (n m : ℕ) (hm : 1 ≤ m) :
    chunkLen n m = (n + m - 1) / m := by
  have hm0 : 0 < m := hm
  set q := (n + m - 1) / m with hq
  obtain ⟨key1, key2⟩ : n ≤ m * q ∧ m * q + 1 ≤ n + m := by
    have hdm : m * q + (n + m - 1) % m = n + m - 1 := Nat.div_add_mod (n + m - 1) m
    have hmod : (n + m - 1) % m < m := Nat.mod_lt _ hm0
    set A := m * q
    set r2 := (n + m - 1) % m
    omega
  have hmr : (0 : ℝ) < (m : ℝ) := by exact_mod_cast hm0
  have hceil : ⌈(n : ℝ) / (m : ℝ)⌉ = (q : ℤ) := by
    rw [Int.ceil_eq_iff]
    constructor
    · rw [lt_div_iff₀ hmr]
      have hc2 : (m : ℝ) * (q : ℝ) + 1 ≤ (n : ℝ) + (m : ℝ) := by exact_mod_cast key2
      push_cast
      nlinarith
    · rw [div_le_iff₀ hmr]
      have hc1 : (n : ℝ) ≤ (m : ℝ) * (q : ℝ) := by exact_mod_cast key1
      push_cast
      nlinarith
  unfold chunkLen
  rw [hceil]
  exact Int.toNat_natCast q

/-- Claim C7: `chunk_no = 2^k` where `k = int(max(0, ceil(log2(P·N / c))))` is
exactly the smallest `k ≥ 0` with `P·N / c ≤ 2^k`, and
`chunk_len = ceil(N / 2^k)` (equal to the natural ceiling division). -/
theorem chunk_count_minimal_power (P N : ℕ) (c : ℚ) (hP : 1 ≤ P) (hN : 1 ≤ N)
    (hc : 0 < c) :
    ((P * N : ℕ) : ℝ) / (c : ℝ) ≤ 2 ^ chunkNoExp (P * N) c ∧
    (∀ j : ℕ, ((P * N : ℕ) : ℝ) / (c : ℝ) ≤ 2 ^ j → chunkNoExp (P * N) c ≤ j) ∧
    chunkLen N (2 ^ chunkNoExp (P * N) c)
      = (N + 2 ^ chunkNoExp (P * N) c - 1) / 2 ^ chunkNoExp (P * N) c := by
  have hcr : (0 : ℝ) < (c : ℝ) := by exact_mod_cast hc
  have hPN : (0 : ℝ) < ((P * N : ℕ) : ℝ) := by
    have : 0 < P * N := Nat.mul_pos hP hN
    exact_mod_cast this
  set r : ℝ := ((P * N : ℕ) : ℝ) / (c : ℝ) with hr_def
  have hr : 0 < r := div_pos hPN hcr
  have hk : (chunkNoExp (P * N) c : ℤ) = max 0 ⌈Real.logb 2 r⌉ := by
    unfold chunkNoExp
    exact Int.toNat_of_nonneg (le_max_left _ _)
  refine ⟨?_, ?_, chunkLen_eq_div N _ Nat.one_le_two_pow⟩
  · have hlog : Real.logb 2 r ≤ ((chunkNoExp (P * N) c : ℕ) : ℝ) := by
      calc Real.logb 2 r ≤ ((⌈Real.logb 2 r⌉ : ℤ) : ℝ) := Int.le_ceil _
        _ ≤ ((max 0 ⌈Real.logb 2 r⌉ : ℤ) : ℝ) := by
            exact_mod_cast le_max_right (0 : ℤ) ⌈Real.logb 2 r⌉
        _ = ((chunkNoExp (P * N) c : ℕ) : ℝ) := by exact_mod_cast hk.symm
    have := (Real.logb_le_iff_le_rpow one_lt_two hr).mp hlog
    rwa [Real.rpow_natCast] at this
  · intro j hj
    have hlog : Real.logb 2 r ≤ (j : ℝ) := by
      apply (Real.logb_le_iff_le_rpow one_lt_two hr).mpr
      rwa [Real.rpow_natCast]
    have hcj : ⌈Real.logb 2 r⌉ ≤ (j : ℤ) := Int.ceil_le.mpr (by exact_mod_cast hlog)
    have hmax : max 0 ⌈Real.logb 2 r⌉ ≤ (j : ℤ) :=
      max_le (Int.ofNat_nonneg j) hcj
    unfold chunkNoExp
    exact Int.toNat_le.mpr hmax

theorem chunk_count_minimal_power_witness :
    ((1 * 2 : ℕ) : ℝ) / ((1 : ℚ) : ℝ) ≤ 2 ^ chunkNoExp (1 * 2) 1 ∧
    (∀ j : ℕ, ((1 * 2 : ℕ) : ℝ) / ((1 : ℚ) : ℝ) ≤ 2 ^ j → chunkNoExp (1 * 2) 1 ≤ j) ∧
    chunkLen 2 (2 ^ chunkNoExp (1 * 2) 1)
      = (2 + 2 ^ chunkNoExp (1 * 2) 1 - 1) / 2 ^ chunkNoExp (1 * 2) 1 :=
  chunk_count_minimal_power 1 2 1 (le_refl 1) (by decide) (by decide)

/-- Claim C4: construction is deterministic — two generators independently
constructed from the same model, mode count and explicit integer seed hold
identical `z_1`, `z_2` and `cov_sample` arrays (all RNG draws come from the
same freshly seeded stream, consumed in a fixed order, as modelled by
`setSeedFun`), and in the nugget-free case their field evaluations agree at
every query point. -/
theorem construction_deterministic (impl : RNGImpl) (m : Model) (n : ℕ)
    (sd : SeedObj) (cts : ℚ) (g1 g2 : RandMeth) (k : ℤ)
    (hsd : sd.val = SeedVal.intV k)
    (h1 : init impl (ModelArg.covArg m) n sd cts = (g1, false))
    (h2 : init impl (ModelArg.covArg m) n sd cts = (g2, false)) :
    g1.z_1 = g2.z_1 ∧ g1.z_2 = g2.z_2 ∧ g1.cov_sample = g2.cov_sample ∧
    (m.nugget = 0 → ∀ x y z : ℝ, (call impl g1 x y z).1 = (call impl g2 x y z).1) := by
  have hg : g1 = g2 := by
    have h12 := h1.symm.trans h2
    exact congrArg Prod.fst h12
  subst hg
  exact ⟨rfl, rfl, rfl, fun _ x y z => rfl⟩

/-- The concrete state produced by constructing over `mEx` with seed 42 under
the all-zero RNG behaviour. -/
def gEx : RandMeth :=
  ⟨1, 1, some mEx, ⟨SeedVal.intV 42, 2⟩, ⟨SeedVal.intV 42, 4⟩, [0], [0], [[0]]⟩

theorem gEx_init_eq :
    init implZero (ModelArg.covArg mEx) 1 ⟨SeedVal.intV 42, 2⟩ 1 = (gEx, false) := by
  simp only [init, initState, update]
  rw [if_pos (by simp), if_pos (by decide)]
  simp [setSeedFun, rngNormalList, rngSampleSphere, rngSampleDist, rngSampleLnPdf,
    implZero, mEx, gEx, mkRng, RandMeth.dimS, RandMeth.modelD,
    List.ofFn_succ, List.ofFn_zero]

theorem construction_deterministic_witness :
    gEx.z_1 = gEx.z_1 ∧ gEx.z_2 = gEx.z_2 ∧ gEx.cov_sample = gEx.cov_sample ∧
    (mEx.nugget = 0 → ∀ x y z : ℝ,
      (call implZero gEx x y z).1 = (call implZero gEx x y z).1) :=
  construction_deterministic implZero mEx 1 ⟨SeedVal.intV 42, 2⟩ 1 gEx gEx 42 rfl
    gEx_init_eq gEx_init_eq

end GSTools
